import Mathlib

/-!
# Verification of the winter WebAssembly runtime core

A shallow embedding, in Lean 4, of the core of the `winter` WebAssembly
host runtime (`src/memory.hpp`, `src/memory.cpp`, `src/type.hpp`,
`src/type.cpp`, `src/module.hpp`, `src/module.cpp`, `src/func.hpp`).

Modelling conventions:

* `size_t` values are `Nat`s together with explicit reduction modulo
  `2 ^ 64` (`SIZE_T_MOD`) at every operation where the C++ code can wrap.
* `wptr_t` values are `Nat`s below `2 ^ 32`.
* Fallible operations return `Option`; a `WASSERT` failure (which aborts
  the process) and a thrown `std::bad_alloc` are modelled as `none` /
  `Res.fatal`, while recoverable `LinkError`s are an explicit constructor.
* Pointer identity of heap objects is modelled by explicit identity
  tokens (`ObjId`): distinct allocations carry distinct tokens, and the
  C++ pointer-equality tests are equality of tokens (for interned
  signatures: equality of indices into the owning table, since the table
  stores each `FuncSig` in a stable `unique_ptr` slot).
* The byte contents of a linear memory are a function `Nat → Nat`
  (byte at each offset of the backing region).
-/

namespace Winter

/-- `2 ^ 64`: modulus of the host's `size_t` arithmetic. -/
def SIZE_T_MOD : Nat := 18446744073709551616

/-- `WASM_PAGE_SHIFT`: 64 KiB pages (`memory.hpp`). -/
def WASM_PAGE_SHIFT : Nat := 16

/-- `WASM_PAGE_SIZE = 1 << WASM_PAGE_SHIFT` (`memory.hpp`). -/
def WASM_PAGE_SIZE : Nat := 65536

/-- `WASM_UNLIMITED_PAGES = NumPages(static_cast<size_t>(-1))` (`memory.hpp`). -/
def WASM_UNLIMITED_PAGES : Nat := 18446744073709551615

/-- `WASM_ALLOCATE_FAILURE = NumPages(static_cast<size_t>(-1))` (`memory.hpp`). -/
def WASM_ALLOCATE_FAILURE : Nat := 18446744073709551615

/-- Identity token for a heap object: which owner allocated it
(`0` = the partially instantiated `Module`, `k + 1` = the instantiation
call with identity `k`) and at which slot. Distinct allocations receive
distinct tokens; C++ pointer equality is token equality. -/
structure ObjId where
  owner : Nat
  slot : Nat
deriving DecidableEq, Repr

/-- `struct AbstractMemory` (`memory.hpp`): parameters of a memory that
has not yet been created. -/
structure AbstractMemory where
  is_import : Bool
  is_shared : Bool
  initial_pages : Nat
  max_pages : Nat
deriving DecidableEq, Repr

/-- A `winter::Memory` object together with the fields of its
`MemoryInternal` record. `mem` is the byte contents of the backing
region; `size` is the logical size in bytes. `ident` is the object's
identity token (its address). -/
@[ext]
structure Memory where
  ident : ObjId
  shared : Bool
  mem : Nat → Nat
  size : Nat
  current_capacity_pages : Nat
  max_capacity_pages : Nat
  initial_pages : Nat

/-- `Memory::size_pages()`: `size() >> WASM_PAGE_SHIFT`. -/
def Memory.size_pages (m : Memory) : Nat := m.size / WASM_PAGE_SIZE

/-- `Memory::is_shared()`. -/
def Memory.is_shared (m : Memory) : Bool := m.shared

/-- `Memory::initial_size_pages()`. -/
def Memory.initial_size_pages (m : Memory) : Nat := m.initial_pages

/-- `Memory::alloc_exactly` (`memory.cpp`). Reallocates the backing
region to exactly `num_pages` pages. Returns `none` when the allocation
size would not fit in `size_t` ("Detect when the allocation size is too
large to fit in a size_t") or, in C++, when the host allocator fails;
the model's allocator always succeeds. A `realloc` keeps the bytes below
the old capacity and the newly exposed tail is zeroed. -/
def Memory.alloc_exactly (m : Memory) (num_pages : Nat) : Option Memory :=
  if num_pages ≠ m.current_capacity_pages ∧ num_pages ≠ 0 then
    if num_pages * WASM_PAGE_SIZE % SIZE_T_MOD / WASM_PAGE_SIZE ≠ num_pages then
      none
    else
      some { m with
        mem := fun i =>
          if i < m.current_capacity_pages * WASM_PAGE_SIZE then m.mem i else 0,
        current_capacity_pages := num_pages * WASM_PAGE_SIZE % SIZE_T_MOD / WASM_PAGE_SIZE }
  else
    some m

/-- `Memory::alloc_at_least` (`memory.cpp`). -/
def Memory.alloc_at_least (m : Memory) (num_pages : Nat) : Option Memory :=
  if num_pages ≤ m.current_capacity_pages then
    some m
  else if num_pages > m.max_capacity_pages then
    none
  else
    m.alloc_exactly num_pages

/-- `Memory::grow` (`memory.cpp`). Returns `none` for the fatal
`WASSERT(false, "Growing shared memory is not yet implemented")`;
otherwise `some (returned page count, memory after the call)`. -/
def Memory.grow (m : Memory) (new_pages : Nat) : Option (Nat × Memory) :=
  if new_pages = 0 then
    some (m.size_pages, m)
  else if m.is_shared then
    none
  else
    if (m.size_pages + new_pages) % SIZE_T_MOD < m.size_pages ∨
        (m.size_pages + new_pages) % SIZE_T_MOD > m.max_capacity_pages then
      some (WASM_ALLOCATE_FAILURE, m)
    else if (m.size_pages + new_pages) % SIZE_T_MOD > m.current_capacity_pages then
      match m.alloc_at_least ((m.size_pages + new_pages) % SIZE_T_MOD) with
      | none => some (WASM_ALLOCATE_FAILURE, m)
      | some m1 =>
        some (m.size_pages,
          { m1 with size := (m.size_pages + new_pages) % SIZE_T_MOD * WASM_PAGE_SIZE % SIZE_T_MOD })
    else
      some (m.size_pages,
        { m with size := (m.size_pages + new_pages) % SIZE_T_MOD * WASM_PAGE_SIZE % SIZE_T_MOD })

/-- The empty `Memory` the constructor starts from: `start = nullptr`,
`size = 0`, capacities zero, with the max capacity recorded before the
allocation calls (as in `Memory::Memory`). -/
def Memory.init (id : ObjId) (abst : AbstractMemory) : Memory :=
  { ident := id, shared := false, mem := fun _ => 0, size := 0,
    current_capacity_pages := 0, max_capacity_pages := abst.max_pages,
    initial_pages := abst.initial_pages }

/-- The constructor `Memory::Memory(const AbstractMemory&)` (`memory.hpp`).
`none` models the fatal assertions ("Memory created from unlinked
AbstractMemory", "Shared memories cannot have unlimited capacity") and a
thrown `std::bad_alloc`. The max capacity is recorded before allocating;
the shared flag and the logical size are set afterwards. -/
def Memory.mk_new (id : ObjId) (abst : AbstractMemory) : Option Memory :=
  if abst.is_import then none
  else if abst.is_shared ∧ abst.max_pages = WASM_UNLIMITED_PAGES then none
  else
    match
      (if abst.max_pages ≠ WASM_UNLIMITED_PAGES then
        (Memory.init id abst).alloc_exactly abst.max_pages
      else
        (Memory.init id abst).alloc_at_least abst.initial_pages) with
    | none => none
    | some m1 =>
      some { m1 with
        shared := abst.is_shared,
        size := abst.initial_pages * WASM_PAGE_SIZE % SIZE_T_MOD }

/-- `Memory::create_unshared` (`memory.hpp`). -/
def Memory.create_unshared (id : ObjId) (min max : Nat) : Option Memory :=
  Memory.mk_new id ⟨false, false, min, max⟩

/-- `Memory::create_shared` (`memory.hpp`). -/
def Memory.create_shared (id : ObjId) (min max : Nat) : Option Memory :=
  Memory.mk_new id ⟨false, true, min, max⟩

/-- `Memory::is_valid_address(addr, size)` (`memory.hpp`):
`(addr_s + size) >= addr_s && (addr_s + size) <= this->size()` in
`size_t` arithmetic. -/
def Memory.is_valid_address (m : Memory) (addr len : Nat) : Bool :=
  decide (addr ≤ (addr + len) % SIZE_T_MOD) && decide ((addr + len) % SIZE_T_MOD ≤ m.size)

/-- `Memory::load(void* buf, wptr_t addr, size_t size)` (`memory.hpp`):
on a valid address, copies `len` bytes out of the memory; on an invalid
address returns `false` without writing the caller's buffer (modelled by
`none`). -/
def Memory.load (m : Memory) (addr len : Nat) : Option (List Nat) :=
  if m.is_valid_address addr len then
    some ((List.range len).map fun i => m.mem (addr + i))
  else
    none

/-- `Memory::store(const void* buf, wptr_t addr, size_t size)`
(`memory.hpp`): on a valid address, copies `len` bytes from `buf` into
the memory and returns `true`; on an invalid address returns `false`
and leaves the memory untouched. -/
def Memory.store (m : Memory) (buf : Nat → Nat) (addr len : Nat) : Bool × Memory :=
  if m.is_valid_address addr len then
    (true, { m with
      mem := fun i => if addr ≤ i ∧ i < addr + len then buf (i - addr) else m.mem i })
  else
    (false, m)

/-- The state invariant of a constructed linear memory: the logical size
is page-aligned and at most the current capacity, the current capacity is
at most the max capacity, and the capacity's byte size fits in `size_t`. -/
def Memory.inv (m : Memory) : Prop :=
  m.size = m.size_pages * WASM_PAGE_SIZE ∧
  m.size_pages ≤ m.current_capacity_pages ∧
  m.current_capacity_pages ≤ m.max_capacity_pages ∧
  m.current_capacity_pages * WASM_PAGE_SIZE < SIZE_T_MOD

instance (m : Memory) : Decidable m.inv := by
  unfold Memory.inv
  infer_instance

/-- Running a sequence of `Memory::grow` calls, stopping at a fatal
assertion. -/
def Memory.growSeq (m : Memory) : List Nat → Option Memory
  | [] => some m
  | n :: ns =>
    match m.grow n with
    | none => none
    | some (_, m1) => m1.growSeq ns

end Winter

namespace Winter

/-! ## Helper lemmas about allocation and growth -/

theorem alloc_exactly_spec (m : Memory) (p : Nat) (ma : Memory)
    (h : m.alloc_exactly p = some ma) :
    ma.size = m.size ∧ ma.shared = m.shared ∧ ma.initial_pages = m.initial_pages ∧
    ma.max_capacity_pages = m.max_capacity_pages ∧ ma.ident = m.ident ∧
    (((p = m.current_capacity_pages ∨ p = 0) ∧ ma = m) ∨
      (ma.current_capacity_pages = p ∧ p * WASM_PAGE_SIZE < SIZE_T_MOD)) := by
  unfold Memory.alloc_exactly at h
  by_cases hc : p ≠ m.current_capacity_pages ∧ p ≠ 0
  · rw [if_pos hc] at h
    by_cases hfit : p * WASM_PAGE_SIZE % SIZE_T_MOD / WASM_PAGE_SIZE ≠ p
    · rw [if_pos hfit] at h
      exact absurd h (by simp)
    · rw [if_neg hfit] at h
      have hfit' : p * WASM_PAGE_SIZE % SIZE_T_MOD / WASM_PAGE_SIZE = p := by omega
      have hlt : p * WASM_PAGE_SIZE < SIZE_T_MOD := by
        simp only [WASM_PAGE_SIZE, SIZE_T_MOD] at hfit' ⊢
        omega
      obtain ⟨rfl⟩ := Option.some.injEq _ _ ▸ h
      exact ⟨rfl, rfl, rfl, rfl, rfl, Or.inr ⟨hfit', hlt⟩⟩
  · rw [if_neg hc] at h
    obtain ⟨rfl⟩ := Option.some.injEq _ _ ▸ h
    refine ⟨rfl, rfl, rfl, rfl, rfl, Or.inl ⟨?_, rfl⟩⟩
    by_cases h1 : p = m.current_capacity_pages
    · exact Or.inl h1
    · by_cases h2 : p = 0
      · exact Or.inr h2
      · exact absurd ⟨h1, h2⟩ hc

theorem alloc_at_least_spec (m : Memory) (p : Nat) (ma : Memory)
    (hinv : m.inv) (hmax : p ≤ m.max_capacity_pages)
    (h : m.alloc_at_least p = some ma) :
    ma.size = m.size ∧ ma.shared = m.shared ∧ ma.initial_pages = m.initial_pages ∧
    ma.max_capacity_pages = m.max_capacity_pages ∧ ma.ident = m.ident ∧
    p ≤ ma.current_capacity_pages ∧ ma.current_capacity_pages ≤ ma.max_capacity_pages ∧
    ma.current_capacity_pages * WASM_PAGE_SIZE < SIZE_T_MOD := by
  obtain ⟨hal, hsz, hcap, hfit⟩ := hinv
  unfold Memory.alloc_at_least at h
  by_cases hle : p ≤ m.current_capacity_pages
  · rw [if_pos hle] at h
    obtain ⟨rfl⟩ := Option.some.injEq _ _ ▸ h
    exact ⟨rfl, rfl, rfl, rfl, rfl, hle, hcap, hfit⟩
  · rw [if_neg hle] at h
    by_cases hgt : p > m.max_capacity_pages
    · rw [if_pos hgt] at h
      exact absurd h (by simp)
    · rw [if_neg hgt] at h
      obtain ⟨h1, h2, h3, h4, h5, hcase⟩ := alloc_exactly_spec m p ma h
      rcases hcase with ⟨hp, rfl⟩ | ⟨hcap', hfit'⟩
      · rcases hp with hp | hp
        · omega
        · omega
      · refine ⟨h1, h2, h3, h4, h5, le_of_eq hcap'.symm, ?_, ?_⟩
        · rw [hcap', h4]
          omega
        · rw [hcap']
          exact hfit'

end Winter

namespace Winter

theorem grow_pres (m : Memory) (n r : Nat) (m1 : Memory) (hinv : m.inv)
    (h : m.grow n = some (r, m1)) :
    m1.inv ∧ m.size ≤ m1.size ∧ m1.initial_pages = m.initial_pages ∧
    m1.shared = m.shared ∧ m1.max_capacity_pages = m.max_capacity_pages := by
  unfold Memory.grow at h
  by_cases hn : n = 0
  · rw [if_pos hn] at h
    simp only [Option.some.injEq, Prod.mk.injEq] at h
    obtain ⟨-, rfl⟩ := h
    exact ⟨hinv, le_refl _, rfl, rfl, rfl⟩
  · rw [if_neg hn] at h
    by_cases hsh : m.is_shared = true
    · rw [if_pos hsh] at h
      exact absurd h (by simp)
    · rw [if_neg hsh] at h
      by_cases hov : (m.size_pages + n) % SIZE_T_MOD < m.size_pages ∨
          (m.size_pages + n) % SIZE_T_MOD > m.max_capacity_pages
      · rw [if_pos hov] at h
        simp only [Option.some.injEq, Prod.mk.injEq] at h
        obtain ⟨-, rfl⟩ := h
        exact ⟨hinv, le_refl _, rfl, rfl, rfl⟩
      · rw [if_neg hov] at h
        push_neg at hov
        obtain ⟨hge, hle⟩ := hov
        by_cases hcap2 : (m.size_pages + n) % SIZE_T_MOD > m.current_capacity_pages
        · rw [if_pos hcap2] at h
          cases halloc : m.alloc_at_least ((m.size_pages + n) % SIZE_T_MOD) with
          | none =>
            rw [halloc] at h
            simp only [Option.some.injEq, Prod.mk.injEq] at h
            obtain ⟨-, rfl⟩ := h
            exact ⟨hinv, le_refl _, rfl, rfl, rfl⟩
          | some ma =>
            rw [halloc] at h
            simp only [Option.some.injEq, Prod.mk.injEq] at h
            obtain ⟨-, rfl⟩ := h
            obtain ⟨ha1, ha2, ha3, ha4, ha5, ha6, ha7, ha8⟩ :=
              alloc_at_least_spec m _ ma hinv hle halloc
            obtain ⟨hal, hsz, hcp, hft⟩ := hinv
            refine ⟨⟨?_, ?_, ?_, ?_⟩, ?_, ha3, ha2, ha4⟩ <;>
              simp only [Memory.inv, Memory.size_pages, WASM_PAGE_SIZE, SIZE_T_MOD] at * <;>
              omega
        · rw [if_neg hcap2] at h
          simp only [Option.some.injEq, Prod.mk.injEq] at h
          obtain ⟨-, rfl⟩ := h
          obtain ⟨hal, hsz, hcp, hft⟩ := hinv
          refine ⟨⟨?_, ?_, ?_, ?_⟩, ?_, rfl, rfl, rfl⟩ <;>
            simp only [Memory.inv, Memory.size_pages, WASM_PAGE_SIZE, SIZE_T_MOD] at * <;>
            omega

theorem mk_new_spec (id : ObjId) (ab : AbstractMemory) (m : Memory)
    (hle : ab.initial_pages ≤ ab.max_pages)
    (h : Memory.mk_new id ab = some m) :
    m.inv ∧ m.size_pages = ab.initial_pages ∧ m.initial_pages = ab.initial_pages ∧
    m.shared = ab.is_shared ∧ m.max_capacity_pages = ab.max_pages ∧ m.ident = id := by
  unfold Memory.mk_new at h
  by_cases himp : ab.is_import = true
  · rw [if_pos himp] at h
    exact absurd h (by simp)
  · rw [if_neg himp] at h
    by_cases hshu : ab.is_shared = true ∧ ab.max_pages = WASM_UNLIMITED_PAGES
    · rw [if_pos (by simpa using hshu)] at h
      exact absurd h (by simp)
    · rw [if_neg (by simpa using hshu)] at h
      by_cases hfin : ab.max_pages ≠ WASM_UNLIMITED_PAGES
      · rw [if_pos hfin] at h
        cases halloc : (Memory.init id ab).alloc_exactly ab.max_pages with
        | none =>
          rw [halloc] at h
          exact absurd h (by simp)
        | some ma =>
          rw [halloc] at h
          simp only [Option.some.injEq] at h
          subst h
          obtain ⟨ha1, ha2, ha3, ha4, ha5, hcase⟩ := alloc_exactly_spec _ _ ma halloc
          simp only [Memory.init] at ha1 ha2 ha3 ha4 ha5
          rcases hcase with ⟨hz, rfl⟩ | ⟨hcap, hfit⟩
          · have hmz : ab.max_pages = 0 := by
              rcases hz with hz | hz
              · simpa [Memory.init] using hz
              · exact hz
            have hiz : ab.initial_pages = 0 := by omega
            refine ⟨⟨?_, ?_, ?_, ?_⟩, ?_, ?_, rfl, ?_, rfl⟩ <;>
              simp only [Memory.inv, Memory.size_pages, Memory.init, WASM_PAGE_SIZE,
                SIZE_T_MOD, hiz, hmz] <;> omega
          · refine ⟨⟨?_, ?_, ?_, ?_⟩, ?_, ha3, rfl, ha4, ha5⟩ <;>
              simp only [Memory.inv, Memory.size_pages, WASM_PAGE_SIZE, SIZE_T_MOD] at * <;>
              omega
      · rw [if_neg hfin] at h
        cases halloc : (Memory.init id ab).alloc_at_least ab.initial_pages with
        | none =>
          rw [halloc] at h
          exact absurd h (by simp)
        | some ma =>
          rw [halloc] at h
          simp only [Option.some.injEq] at h
          subst h
          have hinv0 : (Memory.init id ab).inv := by
            simp [Memory.inv, Memory.size_pages, Memory.init, SIZE_T_MOD]
          obtain ⟨ha1, ha2, ha3, ha4, ha5, ha6, ha7, ha8⟩ :=
            alloc_at_least_spec _ _ ma hinv0 (by simpa [Memory.init] using hle) halloc
          simp only [Memory.init] at ha1 ha2 ha3 ha4 ha5
          refine ⟨⟨?_, ?_, ?_, ?_⟩, ?_, ha3, rfl, ha4, ha5⟩ <;>
            simp only [Memory.inv, Memory.size_pages, WASM_PAGE_SIZE, SIZE_T_MOD] at * <;>
            omega

theorem growSeq_pres (ns : List Nat) (m m1 : Memory) (hinv : m.inv)
    (h : m.growSeq ns = some m1) :
    m1.inv ∧ m.size ≤ m1.size ∧ m1.initial_pages = m.initial_pages ∧
    m1.shared = m.shared ∧ m1.max_capacity_pages = m.max_capacity_pages := by
  induction ns generalizing m with
  | nil =>
    simp only [Memory.growSeq, Option.some.injEq] at h
    subst h
    exact ⟨hinv, le_refl _, rfl, rfl, rfl⟩
  | cons n ns ih =>
    unfold Memory.growSeq at h
    cases hg : m.grow n with
    | none =>
      rw [hg] at h
      exact absurd h (by simp)
    | some p =>
      rw [hg] at h
      obtain ⟨hi1, hi2, hi3, hi4, hi5⟩ := grow_pres m n p.1 p.2 hinv hg
      obtain ⟨hj1, hj2, hj3, hj4, hj5⟩ := ih p.2 hi1 h
      exact ⟨hj1, le_trans hi2 hj2, hj3.trans hi3, hj4.trans hi4, hj5.trans hi5⟩

end Winter

namespace Winter

/-! ## Concrete memories used as test inputs -/

/-- The memory produced by `Memory::create_unshared(NumPages(1), NumPages(3))`:
one page logical size, backing pre-allocated at the max capacity of 3 pages. -/
def memA : Memory :=
  { ident := ⟨1, 0⟩, shared := false, mem := fun _ => 0, size := 65536,
    current_capacity_pages := 3, max_capacity_pages := 3, initial_pages := 1 }

theorem create_unshared_memA : Memory.create_unshared ⟨1, 0⟩ 1 3 = some memA := by
  unfold Memory.create_unshared Memory.mk_new Memory.init Memory.alloc_exactly memA
  norm_num [WASM_UNLIMITED_PAGES, WASM_PAGE_SIZE, SIZE_T_MOD]

/-- The memory produced by `Memory::create_shared(NumPages(1), NumPages(1))`. -/
def memS : Memory :=
  { ident := ⟨1, 0⟩, shared := true, mem := fun _ => 0, size := 65536,
    current_capacity_pages := 1, max_capacity_pages := 1, initial_pages := 1 }

theorem create_shared_memS : Memory.create_shared ⟨1, 0⟩ 1 1 = some memS := by
  unfold Memory.create_shared Memory.mk_new Memory.init Memory.alloc_exactly memS
  norm_num [WASM_UNLIMITED_PAGES, WASM_PAGE_SIZE, SIZE_T_MOD]

end Winter

namespace Winter

/-! ## Claim theorems about linear memory -/

/-- C6: for every linear memory `M`, address `addr` (a `wptr_t`) and
length `len` (a `size_t`), `Memory::is_valid_address(addr, len)` returns
true if and only if `addr + len` does not overflow and `addr + len` is
at most `M`'s current size in bytes. -/
theorem is_valid_address_iff (m : Memory) (addr len : Nat)
    (ha : addr < 4294967296) (hl : len < SIZE_T_MOD) :
    m.is_valid_address addr len = true ↔
      addr + len < SIZE_T_MOD ∧ addr + len ≤ m.size := by
  unfold Memory.is_valid_address
  simp only [Bool.and_eq_true, decide_eq_true_eq, SIZE_T_MOD] at *
  omega

/-- Witness for C6 on the concrete memory `memA` (1 page): address
65535 with length 1 is valid, address 65535 with length 2 is not. -/
theorem is_valid_address_iff_points :
    memA.is_valid_address 65535 1 = true ∧ memA.is_valid_address 65535 2 = false := by
  constructor
  · exact (is_valid_address_iff memA 65535 1 (by decide) (by decide)).2 (by decide)
  · have h := is_valid_address_iff memA 65535 2 (by decide) (by decide)
    by_contra hc
    have : memA.is_valid_address 65535 2 = true := by
      cases hv : memA.is_valid_address 65535 2
      · exact absurd hv hc
      · rfl
    exact absurd ((h.1 this).2) (by decide)

/-- C10: whenever `is_valid_address(addr, len)` is false, `Memory::load`
returns false without writing the caller's buffer (modelled by `none`)
and `Memory::store` returns false and leaves the memory — contents,
size and capacities — entirely unchanged. -/
theorem load_store_out_of_bounds (m : Memory) (buf : Nat → Nat) (addr len : Nat)
    (h : m.is_valid_address addr len = false) :
    m.load addr len = none ∧ m.store buf addr len = (false, m) := by
  unfold Memory.load Memory.store
  rw [h]
  simp

/-- Witness for C10: an out-of-bounds access on the one-page memory `memA`. -/
theorem load_store_out_of_bounds_points :
    memA.load 65536 1 = none ∧ memA.store (fun _ => 7) 65536 1 = (false, memA) :=
  load_store_out_of_bounds memA (fun _ => 7) 65536 1 (by decide)

/-- C5 counterexample: the claim says `Memory::grow` refuses EVERY page
delta on a shared memory with a fatal assertion, but a delta of 0
returns the current size (1 page here) normally — the `new_pages == 0`
early return precedes the shared-memory check. -/
theorem grow_shared_delta_zero_cex :
    ((Memory.create_shared ⟨1, 0⟩ 1 1).any
      fun m => m.is_shared && (m.grow 0).isSome && ((m.grow 0).map Prod.fst == some 1)) = true := by
  decide

/-- C5 (amended): for every shared linear memory and every NONZERO page
delta, `Memory::grow` hits the fatal `WASSERT`; the logical size of a
shared memory is never changed by `grow` (a zero delta returns the
current size and leaves the memory untouched). -/
theorem grow_shared_refused (m : Memory) (h : m.is_shared = true) (n : Nat) :
    (n ≠ 0 → m.grow n = none) ∧ ∀ r m1, m.grow n = some (r, m1) → m1 = m := by
  unfold Memory.grow
  constructor
  · intro hn
    rw [if_neg hn, if_pos h]
  · intro r m1 hh
    by_cases hn : n = 0
    · rw [if_pos hn] at hh
      simp only [Option.some.injEq, Prod.mk.injEq] at hh
      exact hh.2.symm
    · rw [if_neg hn, if_pos h] at hh
      cases hh

/-- Witness for C5's amended theorem on the concrete shared memory `memS`. -/
theorem grow_shared_refused_points : memS.grow 2 = none :=
  (grow_shared_refused memS rfl 2).1 (by decide)

end Winter

namespace Winter

/-- C8 counterexample: the constructor enforces no relation between the
initial size and the max capacity, so `Memory::create_unshared(5, 3)`
builds a memory whose logical size (5 pages) exceeds its current
capacity (3 pages), violating the claimed invariant immediately after
construction. -/
theorem memory_invariants_cex :
    ((Memory.create_unshared ⟨1, 0⟩ 5 3).any
      fun m => decide (m.current_capacity_pages < m.size_pages)) = true := by
  decide

/-- C8 (amended): for every linear memory constructed with
`initial_pages ≤ max_pages`, after construction and after every
sequence of grow calls, `size_pages ≤ current_capacity_pages ≤
max_capacity_pages` and `size_pages ≥ initial_size_pages` hold, and the
size is monotone non-decreasing across the sequence and across any
further grow call. -/
theorem memory_invariants (id : ObjId) (ab : AbstractMemory) (m m1 : Memory) (ns : List Nat)
    (hle : ab.initial_pages ≤ ab.max_pages)
    (hmk : Memory.mk_new id ab = some m) (hseq : m.growSeq ns = some m1) :
    (m1.size_pages ≤ m1.current_capacity_pages ∧
     m1.current_capacity_pages ≤ m1.max_capacity_pages ∧
     m1.initial_size_pages ≤ m1.size_pages ∧
     m.size_pages ≤ m1.size_pages) ∧
    ∀ n r m2, m1.grow n = some (r, m2) → m1.size_pages ≤ m2.size_pages := by
  obtain ⟨hinv, hsp, hip, hsh, hmx, hid⟩ := mk_new_spec id ab m hle hmk
  obtain ⟨hinv1, hsz1, hip1, hsh1, hmx1⟩ := growSeq_pres ns m m1 hinv hseq
  have hsp1 : m.size_pages ≤ m1.size_pages := Nat.div_le_div_right hsz1
  refine ⟨⟨hinv1.2.1, hinv1.2.2.1, ?_, hsp1⟩, ?_⟩
  · unfold Memory.initial_size_pages
    rw [hip1, hip, ← hsp]
    exact hsp1
  · intro n r m2 hg
    obtain ⟨-, hsz2, -, -, -⟩ := grow_pres m1 n r m2 hinv1 hg
    exact Nat.div_le_div_right hsz2

/-- Witness for C8's amended theorem: the memory built by
`create_unshared(1, 3)` after an empty grow sequence. -/
theorem memory_invariants_points :
    memA.size_pages ≤ memA.current_capacity_pages ∧
    memA.current_capacity_pages ≤ memA.max_capacity_pages ∧
    memA.initial_size_pages ≤ memA.size_pages := by
  have h := memory_invariants ⟨1, 0⟩ ⟨false, false, 1, 3⟩ memA memA []
    (by decide) create_unshared_memA rfl
  exact ⟨h.1.1, h.1.2.1, h.1.2.2.1⟩

end Winter

namespace Winter

/-- C1: for every unshared linear memory (in a state reachable from the
constructor, i.e. satisfying `Memory.inv`), `Memory::grow(n)` behaves as
follows. `grow(0)` returns the current size in pages and changes
nothing. For `n ≠ 0`, if `size_pages + n` neither overflows the
page-count type nor exceeds `max_capacity_pages` and any needed capacity
expansion succeeds, `grow` returns the previous size in pages and the new
size in pages is `size_pages + n`; otherwise it returns
`WASM_ALLOCATE_FAILURE` and the memory is unchanged. -/
theorem grow_unshared_spec (m : Memory) (n : Nat)
    (hsh : m.is_shared = false) (hinv : m.inv) (hn : n < SIZE_T_MOD) :
    (n = 0 → m.grow 0 = some (m.size_pages, m)) ∧
    (n ≠ 0 → m.size_pages + n < SIZE_T_MOD → m.size_pages + n ≤ m.max_capacity_pages →
      ∀ ma, m.alloc_at_least (m.size_pages + n) = some ma →
        ∃ m1, m.grow n = some (m.size_pages, m1) ∧ m1.size_pages = m.size_pages + n) ∧
    (n ≠ 0 → (SIZE_T_MOD ≤ m.size_pages + n ∨ m.max_capacity_pages < m.size_pages + n ∨
        m.alloc_at_least (m.size_pages + n) = none) →
      m.grow n = some (WASM_ALLOCATE_FAILURE, m)) := by
  have hshf : ¬ m.is_shared = true := by simp [hsh]
  obtain ⟨hal, hszc, hcm, hft⟩ := hinv
  refine ⟨?_, ?_, ?_⟩
  · intro hz
    unfold Memory.grow
    rw [if_pos rfl]
  · intro hn0 hnov hmax2 ma hala
    unfold Memory.grow
    rw [if_neg hn0, if_neg hshf, Nat.mod_eq_of_lt hnov]
    rw [if_neg (by omega)]
    by_cases hc : m.size_pages + n > m.current_capacity_pages
    · rw [if_pos hc, hala]
      obtain ⟨ha1, ha2, ha3, ha4, ha5, ha6, ha7, ha8⟩ :=
        alloc_at_least_spec m _ ma ⟨hal, hszc, hcm, hft⟩ hmax2 hala
      refine ⟨_, rfl, ?_⟩
      simp only [Memory.size_pages, WASM_PAGE_SIZE, SIZE_T_MOD] at *
      omega
    · rw [if_neg hc]
      refine ⟨_, rfl, ?_⟩
      push_neg at hc
      simp only [Memory.size_pages, WASM_PAGE_SIZE, SIZE_T_MOD] at *
      omega
  · intro hn0 hfail
    unfold Memory.grow
    rw [if_neg hn0, if_neg hshf]
    rcases hfail with hov | hbig | halc
    · rw [if_pos (by
        simp only [Memory.size_pages, WASM_PAGE_SIZE, SIZE_T_MOD] at *
        omega)]
    · rw [if_pos (by
        simp only [Memory.size_pages, WASM_PAGE_SIZE, SIZE_T_MOD] at *
        omega)]
    · have hgtc : ¬ m.size_pages + n ≤ m.current_capacity_pages := by
        intro hlc
        unfold Memory.alloc_at_least at halc
        rw [if_pos hlc] at halc
        cases halc
      by_cases hov2 : (m.size_pages + n) % SIZE_T_MOD < m.size_pages ∨
          (m.size_pages + n) % SIZE_T_MOD > m.max_capacity_pages
      · rw [if_pos hov2]
      · rw [if_neg hov2]
        push_neg at hov2
        have hnov : m.size_pages + n < SIZE_T_MOD := by
          by_contra hge
          push_neg at hge
          have : (m.size_pages + n) % SIZE_T_MOD < m.size_pages := by
            simp only [Memory.size_pages, WASM_PAGE_SIZE, SIZE_T_MOD] at *
            omega
          omega
        rw [Nat.mod_eq_of_lt hnov, if_pos (by omega), halc]

/-- The states of `memA` after growing to 2 and to 3 pages. -/
def memA2 : Memory := { memA with size := 131072 }

/-- See `memA2`. -/
def memA3 : Memory := { memA with size := 196608 }

/-- Witness for C1, realising the claim's concrete scenario on the
memory built by `create_unshared(1, 3)` (`memA`, one page; `memA2` and
`memA3` are its 2- and 3-page states): `grow(0)` returns 1 and changes
nothing; `grow(1)` returns 1 and the size becomes 2 pages; `grow(2)`
then returns `WASM_ALLOCATE_FAILURE` (2 + 2 > 3) leaving the memory
unchanged; `grow(1)` returns 2 and the size becomes 3 pages; a further
`grow(1)` fails, as does a near-maximal delta, without altering the
memory. -/
theorem grow_unshared_spec_points :
    memA.grow 0 = some (1, memA) ∧
    (∃ m1, memA.grow 1 = some (1, m1) ∧ m1.size_pages = 2) ∧
    memA2.grow 2 = some (WASM_ALLOCATE_FAILURE, memA2) ∧
    (∃ m1, memA2.grow 1 = some (2, m1) ∧ m1.size_pages = 3) ∧
    memA3.grow 1 = some (WASM_ALLOCATE_FAILURE, memA3) ∧
    memA2.grow 18446744073709551615 = some (WASM_ALLOCATE_FAILURE, memA2) := by
  have hinv : memA.inv := ⟨by decide, by decide, by decide, by decide⟩
  have hinv2 : memA2.inv := ⟨by decide, by decide, by decide, by decide⟩
  have hinv3 : memA3.inv := ⟨by decide, by decide, by decide, by decide⟩
  refine ⟨?_, ?_, ?_, ?_, ?_, ?_⟩
  · exact (grow_unshared_spec memA 0 rfl hinv (by decide)).1 rfl
  · exact (grow_unshared_spec memA 1 rfl hinv (by decide)).2.1 (by decide)
      (by decide) (by decide) memA rfl
  · exact (grow_unshared_spec memA2 2 rfl hinv2 (by decide)).2.2 (by decide)
      (Or.inr (Or.inl (by decide)))
  · exact (grow_unshared_spec memA2 1 rfl hinv2 (by decide)).2.1 (by decide)
      (by decide) (by decide) memA2 rfl
  · exact (grow_unshared_spec memA3 1 rfl hinv3 (by decide)).2.2 (by decide)
      (Or.inr (Or.inl (by decide)))
  · exact (grow_unshared_spec memA2 18446744073709551615 rfl hinv2 (by decide)).2.2
      (by decide) (Or.inl (by decide))

end Winter

namespace Winter

/-! ## Types and the type interner (`type.hpp` / `type.cpp`) -/

/-- `enum class PrimitiveValueType` (`type.hpp`). -/
inductive PrimitiveValueType where
  | I32
  | I64
  | F32
  | F64
  | FuncRef
deriving DecidableEq, Repr

/-- `struct ValueType` (`type.hpp`): a primitive tag plus, for `FuncRef`,
an optional pointer to an interned `FuncSig` — modelled as the index of
the canonical signature in the owning sandbox's `TypeTable` (pointer
equality of interned signatures is index equality, since the table keeps
each signature in a stable `unique_ptr` slot). `none` is `nullptr`. -/
structure ValueType where
  type : PrimitiveValueType
  extra : Option Nat
deriving DecidableEq, Repr

/-- `struct FuncSig` (`type.hpp`). -/
structure FuncSig where
  return_types : List ValueType
  param_types : List ValueType
deriving DecidableEq, Repr

/-- `class TypeTable` (`type.hpp`): the `_sigs` vector of owned
signatures; a canonical reference is an index into it. -/
abbrev TypeTable := List FuncSig

/-- `TypeTable::sig(return_types, param_types)` (`type.cpp`): linear scan
(`std::find_if`) for the first stored signature whose return and
parameter sequences are element-wise equal; on a hit, the reference to
that slot is returned, otherwise a newly allocated signature is appended
and its reference returned. The returned reference is the slot index. -/
def TypeTable.sig (t : TypeTable) (rts pts : List ValueType) : Nat × TypeTable :=
  if FuncSig.mk rts pts ∈ t then
    (t.indexOf ⟨rts, pts⟩, t)
  else
    (t.length, t ++ [⟨rts, pts⟩])

/-- A sequence of `TypeTable::sig` calls against an evolving table,
returning the list of canonical references handed out. -/
def TypeTable.internAll (t : TypeTable) :
    List (List ValueType × List ValueType) → List Nat × TypeTable
  | [] => ([], t)
  | q :: qs =>
    ((t.sig q.1 q.2).1 :: ((t.sig q.1 q.2).2.internAll qs).1,
      ((t.sig q.1 q.2).2.internAll qs).2)

theorem sig_spec (t : TypeTable) (rts pts : List ValueType) (hnd : t.Nodup) :
    ∃ u, (t.sig rts pts).2 = t ++ u ∧ (t.sig rts pts).2.Nodup ∧
      (t.sig rts pts).1 < (t.sig rts pts).2.length ∧
      (t.sig rts pts).2[(t.sig rts pts).1]? = some ⟨rts, pts⟩ := by
  unfold TypeTable.sig
  by_cases hmem : FuncSig.mk rts pts ∈ t
  · rw [if_pos hmem]
    refine ⟨[], by simp, hnd, List.indexOf_lt_length.2 hmem, ?_⟩
    have hlt := List.indexOf_lt_length.2 hmem
    rw [List.getElem?_eq_getElem hlt]
    exact congrArg some (List.getElem_indexOf hlt)
  · rw [if_neg hmem]
    refine ⟨[⟨rts, pts⟩], rfl, ?_, by simp, ?_⟩
    · simp [List.nodup_append, hnd, hmem]
    · simp

theorem internAll_spec (reqs : List (List ValueType × List ValueType))
    (t : TypeTable) (hnd : t.Nodup) :
    (TypeTable.internAll t reqs).1.length = reqs.length ∧
    (∃ u, (TypeTable.internAll t reqs).2 = t ++ u) ∧
    (TypeTable.internAll t reqs).2.Nodup ∧
    ∀ a, a < reqs.length → ∃ j q, (TypeTable.internAll t reqs).1[a]? = some j ∧
      reqs[a]? = some q ∧
      (TypeTable.internAll t reqs).2[j]? = some (FuncSig.mk q.1 q.2) := by
  induction reqs generalizing t with
  | nil =>
    refine ⟨rfl, ⟨[], by simp [TypeTable.internAll]⟩, by simpa [TypeTable.internAll], ?_⟩
    intro a ha
    exact absurd ha (by simp)
  | cons q qs ih =>
    obtain ⟨u1, hu1, hnd1, hj1, hget1⟩ := sig_spec t q.1 q.2 hnd
    obtain ⟨hlen, ⟨u2, hu2⟩, hnd2, hidx⟩ := ih (t.sig q.1 q.2).2 hnd1
    rw [show TypeTable.internAll t (q :: qs) =
        ((t.sig q.1 q.2).1 :: (TypeTable.internAll (t.sig q.1 q.2).2 qs).1,
          (TypeTable.internAll (t.sig q.1 q.2).2 qs).2) from rfl]
    refine ⟨by simpa using hlen, ⟨u1 ++ u2, by rw [hu2, hu1, List.append_assoc]⟩, hnd2, ?_⟩
    intro a ha
    cases a with
    | zero =>
      refine ⟨(t.sig q.1 q.2).1, q, by simp, by simp, ?_⟩
      rw [hu2, List.getElem?_append_left hj1]
      exact hget1
    | succ a =>
      obtain ⟨j, qq, hja, hqa, hgj⟩ := hidx a (by simpa using ha)
      exact ⟨j, qq, by simpa using hja, by simpa using hqa, hgj⟩

end Winter

namespace Winter

/-- C2: within one sandbox (`Environment`, which owns one `TypeTable`),
the references returned by a sequence of `TypeTable::sig` calls are in
one-to-one correspondence with the distinct `(return_types, param_types)`
value sequences passed in: two calls whose sequences are element-wise
equal receive a reference to the identical `FuncSig` object (the same
slot of the table), and calls with unequal sequences receive references
to distinct objects. -/
theorem sig_interning (reqs : List (List ValueType × List ValueType)) (a b : Nat)
    (ha : a < reqs.length) (hb : b < reqs.length) :
    (TypeTable.internAll [] reqs).1[a]? = (TypeTable.internAll [] reqs).1[b]? ↔
      reqs[a]? = reqs[b]? := by
  obtain ⟨hlen, -, hnd, hidx⟩ := internAll_spec reqs [] List.nodup_nil
  obtain ⟨ja, qa, hja, hqa, hga⟩ := hidx a ha
  obtain ⟨jb, qb, hjb, hqb, hgb⟩ := hidx b hb
  rw [hja, hjb, hqa, hqb]
  constructor
  · intro h
    obtain rfl : ja = jb := by simpa using h
    rw [hga] at hgb
    have hfs : qa.1 = qb.1 ∧ qa.2 = qb.2 := by simpa using hgb
    rw [Prod.ext hfs.1 hfs.2]
  · intro h
    obtain rfl : qa = qb := by simpa using h
    obtain ⟨hlta, hgea⟩ := List.getElem?_eq_some_iff.1 hga
    obtain ⟨hltb, hgeb⟩ := List.getElem?_eq_some_iff.1 hgb
    have : ja = jb := (hnd.getElem_inj_iff).1 (hgea.trans hgeb.symm)
    rw [this]

/-- The interning requests used as C2's witness: two distinct signatures,
with the first repeated. -/
def reqsEx : List (List ValueType × List ValueType) :=
  [([⟨PrimitiveValueType.I32, none⟩], []),
   ([], [⟨PrimitiveValueType.I32, none⟩]),
   ([⟨PrimitiveValueType.I32, none⟩], [])]

/-- Witness for C2: interning `[s, s', s]` with `s ≠ s'` hands out the
same reference for the two `s` calls and different references for `s`
and `s'`. -/
theorem sig_interning_points :
    (TypeTable.internAll [] reqsEx).1[0]? = (TypeTable.internAll [] reqsEx).1[2]? ∧
    ¬ (TypeTable.internAll [] reqsEx).1[0]? = (TypeTable.internAll [] reqsEx).1[1]? := by
  constructor
  · exact (sig_interning reqsEx 0 2 (by decide) (by decide)).2 (by decide)
  · intro hc
    exact absurd ((sig_interning reqsEx 0 1 (by decide) (by decide)).1 hc) (by decide)

end Winter

namespace Winter

/-! ## Modules, imports and the instance linker (`module.hpp` / `module.cpp`,
`func.hpp` / `func.cpp`) -/

/-- `enum class ExportType` (`module.hpp`). -/
inductive ExportType where
  | Func
  | Table
  | Memory
  | Global
deriving DecidableEq, Repr

/-- `struct Import` (`module.hpp`): the name of the module to import
from, the name of the export to be imported, the kind of object, and
the slot in the importing module's table of that kind. -/
structure ImportM where
  module : String
  name : String
  type : ExportType
  idx : Nat
deriving DecidableEq, Repr

/-- `struct Export` (`module.hpp`). -/
structure ExportM where
  name : String
  type : ExportType
  idx : Nat
deriving DecidableEq, Repr

/-- The sub-kinds of `LinkError` (`module.hpp`), distinguished in the
source by the message built at each throw site. -/
inductive LinkErrorKind where
  | NotFound
  | WrongExportKind
  | SignatureMismatch
  | MemorySharingMismatch
  | MemoryTooSmall
  | MemoryMaxTooLarge
deriving DecidableEq, Repr

/-- `class LinkError` (`module.hpp`): carries the offending import
descriptor; the human-readable message is modelled by its kind. -/
structure LinkError where
  imp : ImportM
  kind : LinkErrorKind
deriving DecidableEq, Repr

/-- An `UnlinkedFunc` (`func.hpp`): its identity and the canonical
signature reference (`&env.types().sig(...)`, an index into the
sandbox's `TypeTable`) stored in its internal record. -/
structure UnlinkedFuncM where
  ident : ObjId
  sig : Nat
deriving DecidableEq, Repr

/-- A `LinkedFunc` (`func.hpp`): its identity (standing for both the
object and its address-stable internal record) and the canonical
signature reference of its `UnlinkedFunc` (`func->unlinked().signature()`). -/
structure LinkedFuncM where
  ident : ObjId
  sig : Nat
deriving DecidableEq, Repr

/-- The fields of `class Module` (`module.hpp`) that instantiation
reads: `_imports`, `_exports`, `_memories`, `_shared_memories`,
`_import_func_sigs` (canonical signature reference per function-import
slot, `none` for defined slots) and `_funcs` (`none` for import slots). -/
structure ModuleM where
  imports : List ImportM
  exports : List ExportM
  memories : List AbstractMemory
  shared_memories : List (Option Memory)
  import_func_sigs : List (Option Nat)
  funcs : List (Option UnlinkedFuncM)

/-- The `_shared_memories` vector built by `Module::Module`
(`module.cpp`): slot `i` holds `new Memory(mem)` when the descriptor is
a defined shared memory, and null otherwise. The module's allocations
carry owner token 0. `none` overall models a thrown `bad_alloc` or a
fatal assertion in the `Memory` constructor. -/
def mkSharedMemories : List AbstractMemory → Nat → Option (List (Option Memory))
  | [], _ => some []
  | d :: ds, k =>
    if d.is_shared ∧ ¬ d.is_import then
      match Memory.mk_new ⟨0, k⟩ d with
      | none => none
      | some mo => (mkSharedMemories ds (k + 1)).map (some mo :: ·)
    else
      (mkSharedMemories ds (k + 1)).map (none :: ·)

/-- An `ImportEnvironment` (`module.hpp`), abstracted to the two lookup
entry points instantiation uses. `Except.error` models a `LinkError`
thrown inside the environment's lookup (a name found with the wrong
export kind); `Except.ok none` models a null result. -/
structure ImportEnvM where
  find_func : ImportM → Except LinkError (Option LinkedFuncM)
  find_memory : ImportM → Except LinkError (Option Memory)

/-- The mutable state `ModuleInstance::instantiate` threads through its
loops: `_funcs`, `_memories`, and the parallel internal tables
`_internal.func_table` / `_internal.memory_table` (each holding the
identity of the installed object's internal record). -/
structure LinkState where
  funcs : List (Option LinkedFuncM)
  mems : List (Option Memory)
  func_table : List (Option ObjId)
  memory_table : List (Option ObjId)

/-- Outcome of a step of instantiation: success, a thrown `LinkError`,
or a fatal `WASSERT` failure. -/
inductive Res (α : Type) where
  | ok (a : α)
  | linkErr (e : LinkError)
  | fatal
deriving DecidableEq, Repr

/-- One iteration of the import-resolution loop of
`ModuleInstance::instantiate` (`module.cpp`), for one import `i`, in
source order: the `WASSERT`s on the slot index and on double imports,
then the environment lookup, the null check (`NotFound`), and either
the signature identity check for a function import or the three
memory-compatibility checks (shared flag, then minimum size, then max
capacity) for a memory import; on success the object and its internal
record are installed at slot `i.idx`. Table/Global imports hit
`WASSERT(false, "Unknown import type")`. -/
def resolveOne (m : ModuleM) (env : ImportEnvM) (st : LinkState) (i : ImportM) :
    Res LinkState :=
  match i.type with
  | ExportType.Func =>
    if i.idx < st.funcs.length then
      if (st.funcs.getD i.idx none).isSome then Res.fatal
      else
        match env.find_func i with
        | Except.error e => Res.linkErr e
        | Except.ok none => Res.linkErr ⟨i, LinkErrorKind.NotFound⟩
        | Except.ok (some f) =>
          if some f.sig ≠ m.import_func_sigs.getD i.idx none then
            Res.linkErr ⟨i, LinkErrorKind.SignatureMismatch⟩
          else
            Res.ok { st with
              funcs := st.funcs.set i.idx (some f),
              func_table := st.func_table.set i.idx (some f.ident) }
    else Res.fatal
  | ExportType.Memory =>
    if i.idx < st.mems.length then
      if (st.mems.getD i.idx none).isSome then Res.fatal
      else
        match env.find_memory i with
        | Except.error e => Res.linkErr e
        | Except.ok none => Res.linkErr ⟨i, LinkErrorKind.NotFound⟩
        | Except.ok (some mo) =>
          match m.memories[i.idx]? with
          | none => Res.fatal
          | some d =>
            if mo.is_shared ≠ d.is_shared then
              Res.linkErr ⟨i, LinkErrorKind.MemorySharingMismatch⟩
            else if mo.initial_size_pages < d.initial_pages then
              Res.linkErr ⟨i, LinkErrorKind.MemoryTooSmall⟩
            else if mo.max_capacity_pages > d.max_pages then
              Res.linkErr ⟨i, LinkErrorKind.MemoryMaxTooLarge⟩
            else
              Res.ok { st with
                mems := st.mems.set i.idx (some mo),
                memory_table := st.memory_table.set i.idx (some mo.ident) }
    else Res.fatal
  | _ => Res.fatal

/-- The import-resolution loop of `ModuleInstance::instantiate`,
processing imports in declaration order and propagating the first
failure. -/
def resolveImports (m : ModuleM) (env : ImportEnvM) :
    List ImportM → LinkState → Res LinkState
  | [], st => Res.ok st
  | i :: rest, st =>
    match resolveOne m env st i with
    | Res.ok st1 => resolveImports m env rest st1
    | Res.linkErr e => Res.linkErr e
    | Res.fatal => Res.fatal

end Winter

namespace Winter

/-- The defined-function loop of `ModuleInstance::instantiate`
(`module.cpp`): for each slot `i` in order, a defined function must not
have been overwritten by an import (`WASSERT`), a `LinkedFunc` is
created from the module's `UnlinkedFunc` (`LinkedFunc::instantiate`,
`func.cpp`: its internal record points at the unlinked record) and
installed together with its internal record; an import slot must have
been filled (`WASSERT`). New linked functions are owned by the instance
(owner token `o`). -/
def fillFuncsGo (o : Nat) : List (Option UnlinkedFuncM) → Nat → LinkState → Res LinkState
  | [], _, st => Res.ok st
  | some u :: fs, i, st =>
    match st.funcs.getD i none with
    | some _ => Res.fatal
    | none =>
      fillFuncsGo o fs (i + 1)
        { st with
          funcs := st.funcs.set i (some ⟨⟨o, i⟩, u.sig⟩),
          func_table := st.func_table.set i (some ⟨o, i⟩) }
  | none :: fs, i, st =>
    match st.funcs.getD i none with
    | none => Res.fatal
    | some _ => fillFuncsGo o fs (i + 1) st

/-- The defined-memory loop of `ModuleInstance::instantiate`
(`module.cpp`): for each slot `i` in order, a defined slot must not have
been filled by an import (`WASSERT`); a shared defined slot installs the
memory pre-allocated by the partial module (`WASSERT` that it exists),
an unshared defined slot allocates a fresh `Memory` from the descriptor
(`WASSERT` that no pre-allocated memory exists; `none` from the
constructor is a failed allocation); an import slot must have been
filled (`WASSERT`). Fresh memories are owned by the instance (owner
token `o`). -/
def fillMemsGo (sm : List (Option Memory)) (o : Nat) :
    List AbstractMemory → Nat → LinkState → Res LinkState
  | [], _, st => Res.ok st
  | d :: ds, i, st =>
    if d.is_import then
      match st.mems.getD i none with
      | none => Res.fatal
      | some _ => fillMemsGo sm o ds (i + 1) st
    else
      match st.mems.getD i none with
      | some _ => Res.fatal
      | none =>
        if d.is_shared then
          match sm.getD i none with
          | none => Res.fatal
          | some shm =>
            fillMemsGo sm o ds (i + 1)
              { st with
                mems := st.mems.set i (some shm),
                memory_table := st.memory_table.set i (some shm.ident) }
        else
          match sm.getD i none with
          | some _ => Res.fatal
          | none =>
            match Memory.mk_new ⟨o, i⟩ d with
            | none => Res.fatal
            | some mo =>
              fillMemsGo sm o ds (i + 1)
                { st with
                  mems := st.mems.set i (some mo),
                  memory_table := st.memory_table.set i (some mo.ident) }

/-- A fully linked `ModuleInstance` (`module.hpp`): the copied export
list and the function/memory tables with their parallel internal
tables. -/
structure InstM where
  exports : List ExportM
  funcs : List (Option LinkedFuncM)
  mems : List (Option Memory)
  func_table : List (Option ObjId)
  memory_table : List (Option ObjId)

/-- `ModuleInstance::instantiate(module, imports)` (`module.cpp`):
allocate the instance and its parallel tables sized to the module,
resolve imports in declaration order, then materialize defined
functions and defined memories in slot order. `o` is the identity of
this instantiation call: the objects it allocates carry owner token
`o + 1` (distinct calls allocate at distinct addresses). -/
def instantiateM (m : ModuleM) (env : ImportEnvM) (o : Nat) : Res InstM :=
  match resolveImports m env m.imports
      ⟨List.replicate m.funcs.length none, List.replicate m.memories.length none,
        List.replicate m.funcs.length none, List.replicate m.memories.length none⟩ with
  | Res.linkErr e => Res.linkErr e
  | Res.fatal => Res.fatal
  | Res.ok st1 =>
    match fillFuncsGo (o + 1) m.funcs 0 st1 with
    | Res.linkErr e => Res.linkErr e
    | Res.fatal => Res.fatal
    | Res.ok st2 =>
      match fillMemsGo m.shared_memories (o + 1) m.memories 0 st2 with
      | Res.linkErr e => Res.linkErr e
      | Res.fatal => Res.fatal
      | Res.ok st3 =>
        Res.ok ⟨m.exports, st3.funcs, st3.mems, st3.func_table, st3.memory_table⟩

/-- `ModuleInstance::find_export` (`module.cpp`): `std::find_if` for the
first export whose NAME equals the import's `name`; the import's
`module` field and kind are not consulted. -/
def InstM.find_export (inst : InstM) (i : ImportM) : Option ExportM :=
  inst.exports.find? fun e => e.name == i.name

/-- `ModuleInstance::find_func` (`module.cpp`): null if no export of
that name exists; a thrown `LinkError` ("has wrong type") if the named
export is not a function; otherwise `_funcs[e.idx]`. -/
def InstM.find_func (inst : InstM) (i : ImportM) :
    Except LinkError (Option LinkedFuncM) :=
  match inst.find_export i with
  | none => Except.ok none
  | some e =>
    if e.type ≠ ExportType.Func then
      Except.error ⟨i, LinkErrorKind.WrongExportKind⟩
    else
      Except.ok (inst.funcs.getD e.idx none)

/-- `ModuleInstance::find_memory` (`module.cpp`): as `find_func`, for
memory exports. -/
def InstM.find_memory (inst : InstM) (i : ImportM) :
    Except LinkError (Option Memory) :=
  match inst.find_export i with
  | none => Except.ok none
  | some e =>
    if e.type ≠ ExportType.Memory then
      Except.error ⟨i, LinkErrorKind.WrongExportKind⟩
    else
      Except.ok (inst.mems.getD e.idx none)

end Winter

namespace Winter

/-- C9: for a `ModuleInstance` lookup via `find_func` or `find_memory`
with an import query: if some export's name equals the import's name but
its kind differs from the requested kind, a `LinkError` (wrong export
kind) carrying that import is thrown; if no export has a matching name,
null is returned, and the instantiation caller then raises `NotFound`;
the lookup never consults the import's `module` field — only the export
name is matched. -/
theorem find_lookup_spec (inst : InstM) (i : ImportM) :
    (∀ e, inst.find_export i = some e → e.type ≠ ExportType.Func →
      inst.find_func i = Except.error ⟨i, LinkErrorKind.WrongExportKind⟩) ∧
    (∀ e, inst.find_export i = some e → e.type ≠ ExportType.Memory →
      inst.find_memory i = Except.error ⟨i, LinkErrorKind.WrongExportKind⟩) ∧
    (inst.find_export i = none →
      inst.find_func i = Except.ok none ∧ inst.find_memory i = Except.ok none) ∧
    (∀ i2 : ImportM, i2.name = i.name → inst.find_export i2 = inst.find_export i) ∧
    (∀ (m : ModuleM) (env : ImportEnvM) (st : LinkState),
      i.type = ExportType.Func → i.idx < st.funcs.length →
      st.funcs.getD i.idx none = none → env.find_func i = Except.ok none →
      resolveOne m env st i = Res.linkErr ⟨i, LinkErrorKind.NotFound⟩) ∧
    (∀ (m : ModuleM) (env : ImportEnvM) (st : LinkState),
      i.type = ExportType.Memory → i.idx < st.mems.length →
      st.mems.getD i.idx none = none → env.find_memory i = Except.ok none →
      resolveOne m env st i = Res.linkErr ⟨i, LinkErrorKind.NotFound⟩) := by
  refine ⟨?_, ?_, ?_, ?_, ?_, ?_⟩
  · intro e he hne
    unfold InstM.find_func
    rw [he]
    exact if_pos hne
  · intro e he hne
    unfold InstM.find_memory
    rw [he]
    exact if_pos hne
  · intro hn
    unfold InstM.find_func InstM.find_memory
    rw [hn]
    exact ⟨rfl, rfl⟩
  · intro i2 hname
    unfold InstM.find_export
    rw [hname]
  · intro m env st ht hidx hfree henv
    unfold resolveOne
    rw [ht, if_pos hidx, hfree, henv]
    rfl
  · intro m env st ht hidx hfree henv
    unfold resolveOne
    rw [ht, if_pos hidx, hfree, henv]
    rfl

/-- The instance used as C9's witness: it exports "tbl" as a table at
slot 0 and "mem" as a memory at slot 0, and holds one memory. -/
def instEx : InstM :=
  { exports := [⟨"tbl", ExportType.Table, 0⟩, ⟨"mem", ExportType.Memory, 0⟩],
    funcs := [], mems := [some memS], func_table := [], memory_table := [some ⟨1, 0⟩] }

/-- Witness for C9: on `instEx`, a function lookup for the name "tbl"
throws the wrong-export-kind error carrying the query; a lookup for the
absent name "f" returns null (and the linker step then raises
`NotFound`); queries differing only in the `module` field resolve
identically. -/
theorem find_lookup_spec_points :
    instEx.find_func ⟨"a", "tbl", ExportType.Func, 0⟩ =
      Except.error ⟨⟨"a", "tbl", ExportType.Func, 0⟩, LinkErrorKind.WrongExportKind⟩ ∧
    instEx.find_func ⟨"a", "f", ExportType.Func, 0⟩ = Except.ok none ∧
    instEx.find_export ⟨"other", "mem", ExportType.Func, 3⟩ =
      instEx.find_export ⟨"a", "mem", ExportType.Memory, 0⟩ ∧
    resolveOne ⟨[], [], [], [], [], []⟩ ⟨fun _ => Except.ok none, fun _ => Except.ok none⟩
        ⟨[none], [], [none], []⟩ ⟨"a", "f", ExportType.Func, 0⟩ =
      Res.linkErr ⟨⟨"a", "f", ExportType.Func, 0⟩, LinkErrorKind.NotFound⟩ := by
  refine ⟨?_, ?_, ?_, ?_⟩
  · exact (find_lookup_spec instEx ⟨"a", "tbl", ExportType.Func, 0⟩).1
      ⟨"tbl", ExportType.Table, 0⟩ rfl (by decide)
  · exact ((find_lookup_spec instEx ⟨"a", "f", ExportType.Func, 0⟩).2.2.1 rfl).1
  · exact (find_lookup_spec instEx ⟨"a", "mem", ExportType.Memory, 0⟩).2.2.2.1
      ⟨"other", "mem", ExportType.Func, 3⟩ rfl
  · exact (find_lookup_spec ⟨[], [], [], [], []⟩ ⟨"a", "f", ExportType.Func, 0⟩).2.2.2.2.1
      ⟨[], [], [], [], [], []⟩ ⟨fun _ => Except.ok none, fun _ => Except.ok none⟩
      ⟨[none], [], [none], []⟩ rfl (by decide) rfl rfl

end Winter

namespace Winter

theorem resolveImports_append (m : ModuleM) (env : ImportEnvM) (l1 l2 : List ImportM)
    (st : LinkState) :
    resolveImports m env (l1 ++ l2) st =
      match resolveImports m env l1 st with
      | Res.ok st1 => resolveImports m env l2 st1
      | Res.linkErr e => Res.linkErr e
      | Res.fatal => Res.fatal := by
  induction l1 generalizing st with
  | nil => rfl
  | cons i rest ih =>
    rw [List.cons_append]
    cases h : resolveOne m env st i with
    | ok st1 => simp [resolveImports, h, ih st1]
    | linkErr e => simp [resolveImports, h]
    | fatal => simp [resolveImports, h]

/-- C3: during `ModuleInstance::instantiate`, imports are resolved in
declaration order; when every import before `i` resolves and `i` is a
function import at a free in-range slot: if the environment supplies no
linked function for `i`, the `NotFound` `LinkError` carrying `i` is
thrown; if it supplies one whose unlinked function's canonical signature
reference is not identical to the module's recorded import-signature
reference for that slot, the `SignatureMismatch` `LinkError` carrying
`i` is thrown (so the error reported is the first offending import's);
a `LinkError` thrown inside the environment lookup propagates. On
success the supplied linked function is installed at slot `i.idx` of the
instance's function table and its internal record at the same index of
the internal function table, and resolution continues with the rest. -/
theorem instantiate_func_import_spec (m : ModuleM) (env : ImportEnvM)
    (l1 l2 : List ImportM) (i : ImportM) (st0 st1 : LinkState)
    (h1 : resolveImports m env l1 st0 = Res.ok st1)
    (ht : i.type = ExportType.Func) (hidx : i.idx < st1.funcs.length)
    (hidx2 : i.idx < st1.func_table.length)
    (hfree : st1.funcs.getD i.idx none = none) :
    (env.find_func i = Except.ok none →
      resolveImports m env (l1 ++ i :: l2) st0 =
        Res.linkErr ⟨i, LinkErrorKind.NotFound⟩) ∧
    (∀ f, env.find_func i = Except.ok (some f) →
      some f.sig ≠ m.import_func_sigs.getD i.idx none →
      resolveImports m env (l1 ++ i :: l2) st0 =
        Res.linkErr ⟨i, LinkErrorKind.SignatureMismatch⟩) ∧
    (∀ e, env.find_func i = Except.error e →
      resolveImports m env (l1 ++ i :: l2) st0 = Res.linkErr e) ∧
    (∀ f, env.find_func i = Except.ok (some f) →
      some f.sig = m.import_func_sigs.getD i.idx none →
      ∃ st2, resolveOne m env st1 i = Res.ok st2 ∧
        resolveImports m env (l1 ++ i :: l2) st0 = resolveImports m env l2 st2 ∧
        st2.funcs.getD i.idx none = some f ∧
        st2.func_table.getD i.idx none = some f.ident) := by
  have hstep : ∀ r, resolveOne m env st1 i = r →
      resolveImports m env (l1 ++ i :: l2) st0 =
        match r with
        | Res.ok st2 => resolveImports m env l2 st2
        | Res.linkErr e => Res.linkErr e
        | Res.fatal => Res.fatal := by
    intro r hr
    rw [resolveImports_append, h1]
    show (match resolveOne m env st1 i with
      | Res.ok st2 => resolveImports m env l2 st2
      | Res.linkErr e => Res.linkErr e
      | Res.fatal => Res.fatal) = _
    rw [hr]
  refine ⟨?_, ?_, ?_, ?_⟩
  · intro henv
    exact hstep (Res.linkErr ⟨i, LinkErrorKind.NotFound⟩) (by
      unfold resolveOne
      rw [ht, if_pos hidx, hfree, henv]
      rfl)
  · intro f henv hsig
    exact hstep (Res.linkErr ⟨i, LinkErrorKind.SignatureMismatch⟩) (by
      unfold resolveOne
      rw [ht, if_pos hidx, hfree, henv]
      show (if some f.sig ≠ m.import_func_sigs.getD i.idx none then _ else _) = _
      rw [if_pos hsig])
  · intro e henv
    exact hstep (Res.linkErr e) (by
      unfold resolveOne
      rw [ht, if_pos hidx, hfree, henv]
      rfl)
  · intro f henv hsig
    refine ⟨{ st1 with
        funcs := st1.funcs.set i.idx (some f),
        func_table := st1.func_table.set i.idx (some f.ident) }, ?_, ?_, ?_, ?_⟩
    · unfold resolveOne
      rw [ht, if_pos hidx, hfree, henv]
      show (if some f.sig ≠ m.import_func_sigs.getD i.idx none then _ else _) = _
      rw [if_neg (by simp [hsig])]
    · exact hstep (Res.ok
        { st1 with
          funcs := st1.funcs.set i.idx (some f),
          func_table := st1.func_table.set i.idx (some f.ident) }) (by
      unfold resolveOne
      rw [ht, if_pos hidx, hfree, henv]
      show (if some f.sig ≠ m.import_func_sigs.getD i.idx none then _ else _) = _
      rw [if_neg (by simp [hsig])])
    · show (st1.funcs.set i.idx (some f)).getD i.idx none = some f
      rw [List.getD_eq_getElem?_getD, List.getElem?_set_self hidx]
      rfl
    · show (st1.func_table.set i.idx (some f.ident)).getD i.idx none = some f.ident
      rw [List.getD_eq_getElem?_getD, List.getElem?_set_self hidx2]
      rfl

end Winter

namespace Winter

/-- Fixtures for C3's witness: a module with a single function import at
slot 0 whose recorded canonical signature reference is 7. -/
def impF : ImportM := ⟨"m", "f", ExportType.Func, 0⟩

/-- See `impF`. -/
def modF : ModuleM := ⟨[impF], [], [], [], [some 7], [none]⟩

/-- The preflight `LinkState` for `modF`: one empty function slot. -/
def stF : LinkState := ⟨[none], [], [none], []⟩

/-- A linked function whose unlinked signature reference matches `modF`'s. -/
def fnGood : LinkedFuncM := ⟨⟨9, 9⟩, 7⟩

/-- A linked function with a different signature reference. -/
def fnBad : LinkedFuncM := ⟨⟨9, 9⟩, 8⟩

/-- An import environment answering every function lookup with `r`. -/
def envF (r : Option LinkedFuncM) : ImportEnvM :=
  ⟨fun _ => Except.ok r, fun _ => Except.ok none⟩

/-- Witness for C3: on `modF`, a missing supplier yields `NotFound`
carrying the import, a supplier with signature reference 8 ≠ 7 yields
`SignatureMismatch` carrying the import, and the matching supplier is
installed at slot 0 of both the function table and the internal
function table. -/
theorem instantiate_func_import_spec_points :
    resolveImports modF (envF none) [impF] stF =
      Res.linkErr ⟨impF, LinkErrorKind.NotFound⟩ ∧
    resolveImports modF (envF (some fnBad)) [impF] stF =
      Res.linkErr ⟨impF, LinkErrorKind.SignatureMismatch⟩ ∧
    resolveImports modF (envF (some fnGood)) [impF] stF =
      Res.ok ⟨[some fnGood], [], [some ⟨9, 9⟩], []⟩ := by
  have h1 := instantiate_func_import_spec modF (envF none) [] [] impF stF stF
    rfl rfl (by decide) (by decide) rfl
  have h2 := instantiate_func_import_spec modF (envF (some fnBad)) [] [] impF stF stF
    rfl rfl (by decide) (by decide) rfl
  have h3 := instantiate_func_import_spec modF (envF (some fnGood)) [] [] impF stF stF
    rfl rfl (by decide) (by decide) rfl
  refine ⟨h1.1 rfl, h2.2.1 fnBad rfl (by decide), ?_⟩
  obtain ⟨st2, hro, hri, hf, hft⟩ := h3.2.2.2 fnGood rfl (by decide)
  have hcomp : resolveOne modF (envF (some fnGood)) stF impF =
      Res.ok ⟨[some fnGood], [], [some ⟨9, 9⟩], []⟩ := rfl
  cases hro.symm.trans hcomp
  exact hri

end Winter

namespace Winter

/-- C4: `ModuleInstance::instantiate` accepts a supplied memory for a
memory import (at a free in-range slot, with every earlier import
resolved) if and only if the supplied memory's shared flag equals the
module descriptor's, its `initial_size_pages` is at least the
descriptor's `initial_pages`, and its `max_capacity_pages` is at most
the descriptor's `max_pages` (so a supplier with unlimited max always
fails against a finite module bound, since `WASM_UNLIMITED_PAGES` is the
largest page count); each violated condition — checked in the order
shared flag, minimum size, max capacity, after the `NotFound` check —
throws the corresponding `LinkError` carrying the import descriptor. -/
theorem instantiate_mem_import_spec (m : ModuleM) (env : ImportEnvM)
    (l1 l2 : List ImportM) (i : ImportM) (st0 st1 : LinkState)
    (h1 : resolveImports m env l1 st0 = Res.ok st1)
    (ht : i.type = ExportType.Memory) (hidx : i.idx < st1.mems.length)
    (hidx2 : i.idx < st1.memory_table.length)
    (hfree : st1.mems.getD i.idx none = none)
    (d : AbstractMemory) (hd : m.memories[i.idx]? = some d) :
    (env.find_memory i = Except.ok none →
      resolveImports m env (l1 ++ i :: l2) st0 =
        Res.linkErr ⟨i, LinkErrorKind.NotFound⟩) ∧
    (∀ mo, env.find_memory i = Except.ok (some mo) →
      mo.is_shared ≠ d.is_shared →
      resolveImports m env (l1 ++ i :: l2) st0 =
        Res.linkErr ⟨i, LinkErrorKind.MemorySharingMismatch⟩) ∧
    (∀ mo, env.find_memory i = Except.ok (some mo) →
      mo.is_shared = d.is_shared → mo.initial_size_pages < d.initial_pages →
      resolveImports m env (l1 ++ i :: l2) st0 =
        Res.linkErr ⟨i, LinkErrorKind.MemoryTooSmall⟩) ∧
    (∀ mo, env.find_memory i = Except.ok (some mo) →
      mo.is_shared = d.is_shared → d.initial_pages ≤ mo.initial_size_pages →
      d.max_pages < mo.max_capacity_pages →
      resolveImports m env (l1 ++ i :: l2) st0 =
        Res.linkErr ⟨i, LinkErrorKind.MemoryMaxTooLarge⟩) ∧
    (∀ mo, env.find_memory i = Except.ok (some mo) →
      mo.is_shared = d.is_shared → d.initial_pages ≤ mo.initial_size_pages →
      mo.max_capacity_pages ≤ d.max_pages →
      resolveOne m env st1 i = Res.ok
        { st1 with
          mems := st1.mems.set i.idx (some mo),
          memory_table := st1.memory_table.set i.idx (some mo.ident) } ∧
      resolveImports m env (l1 ++ i :: l2) st0 =
        resolveImports m env l2
          { st1 with
            mems := st1.mems.set i.idx (some mo),
            memory_table := st1.memory_table.set i.idx (some mo.ident) } ∧
      (st1.mems.set i.idx (some mo)).getD i.idx none = some mo ∧
      (st1.memory_table.set i.idx (some mo.ident)).getD i.idx none = some mo.ident) := by
  have hstep : ∀ r, resolveOne m env st1 i = r →
      resolveImports m env (l1 ++ i :: l2) st0 =
        match r with
        | Res.ok st2 => resolveImports m env l2 st2
        | Res.linkErr e => Res.linkErr e
        | Res.fatal => Res.fatal := by
    intro r hr
    rw [resolveImports_append, h1]
    show (match resolveOne m env st1 i with
      | Res.ok st2 => resolveImports m env l2 st2
      | Res.linkErr e => Res.linkErr e
      | Res.fatal => Res.fatal) = _
    rw [hr]
  refine ⟨?_, ?_, ?_, ?_, ?_⟩
  · intro henv
    exact hstep (Res.linkErr ⟨i, LinkErrorKind.NotFound⟩) (by
      unfold resolveOne
      rw [ht, if_pos hidx, hfree, henv]
      rfl)
  · intro mo henv hshne
    exact hstep (Res.linkErr ⟨i, LinkErrorKind.MemorySharingMismatch⟩) (by
      unfold resolveOne
      rw [ht, if_pos hidx, hfree, henv]
      show (match m.memories[i.idx]? with
        | none => Res.fatal
        | some d => _) = _
      rw [hd]
      show (if mo.is_shared ≠ d.is_shared then _ else _) = _
      rw [if_pos hshne])
  · intro mo henv hsheq hsmall
    exact hstep (Res.linkErr ⟨i, LinkErrorKind.MemoryTooSmall⟩) (by
      unfold resolveOne
      rw [ht, if_pos hidx, hfree, henv]
      show (match m.memories[i.idx]? with
        | none => Res.fatal
        | some d => _) = _
      rw [hd]
      show (if mo.is_shared ≠ d.is_shared then _ else _) = _
      rw [if_neg (by simp [hsheq]), if_pos hsmall])
  · intro mo henv hsheq hbig hmax
    exact hstep (Res.linkErr ⟨i, LinkErrorKind.MemoryMaxTooLarge⟩) (by
      unfold resolveOne
      rw [ht, if_pos hidx, hfree, henv]
      show (match m.memories[i.idx]? with
        | none => Res.fatal
        | some d => _) = _
      rw [hd]
      show (if mo.is_shared ≠ d.is_shared then _ else _) = _
      rw [if_neg (by simp [hsheq]), if_neg (by omega), if_pos hmax])
  · intro mo henv hsheq hbig hmax
    have hro : resolveOne m env st1 i = Res.ok
        { st1 with
          mems := st1.mems.set i.idx (some mo),
          memory_table := st1.memory_table.set i.idx (some mo.ident) } := by
      unfold resolveOne
      rw [ht, if_pos hidx, hfree, henv]
      show (match m.memories[i.idx]? with
        | none => Res.fatal
        | some d => _) = _
      rw [hd]
      show (if mo.is_shared ≠ d.is_shared then _ else _) = _
      rw [if_neg (by simp [hsheq]), if_neg (by omega), if_neg (by omega)]
    refine ⟨hro, hstep _ hro, ?_, ?_⟩
    · rw [List.getD_eq_getElem?_getD, List.getElem?_set_self hidx]
      rfl
    · rw [List.getD_eq_getElem?_getD, List.getElem?_set_self hidx2]
      rfl

end Winter

namespace Winter

/-- Fixtures for C4's witness: a module importing one memory at slot 0
requiring unshared, initial ≥ 5 pages, max ≤ 10 pages. -/
def impM : ImportM := ⟨"m", "mem", ExportType.Memory, 0⟩

/-- See `impM`. -/
def modM : ModuleM := ⟨[impM], [], [⟨true, false, 5, 10⟩], [none], [], []⟩

/-- The preflight `LinkState` for `modM`: one empty memory slot. -/
def stM : LinkState := ⟨[], [none], [], [none]⟩

/-- A compatible supplier: unshared, initial 5, max 10. -/
def memOk : Memory :=
  { ident := ⟨9, 0⟩, shared := false, mem := fun _ => 0, size := 327680,
    current_capacity_pages := 10, max_capacity_pages := 10, initial_pages := 5 }

/-- A shared supplier (incompatible shared flag). -/
def memShd : Memory := { memOk with shared := true }

/-- A supplier whose max capacity 11 exceeds the import's bound 10. -/
def memMax11 : Memory := { memOk with max_capacity_pages := 11 }

/-- A supplier whose initial size 4 is below the import's minimum 5. -/
def memInit4 : Memory := { memOk with initial_pages := 4 }

/-- An import environment answering every memory lookup with `r`. -/
def envM (r : Option Memory) : ImportEnvM :=
  ⟨fun _ => Except.ok none, fun _ => Except.ok r⟩

/-- Witness for C4, realising the claim's compatibility matrix against
`modM`: an absent supplier, a shared supplier, a max = 11 supplier and
an initial = 4 supplier are each rejected with the corresponding
`LinkError` carrying the import, while the unshared (5, 10) supplier is
installed at slot 0. -/
theorem instantiate_mem_import_spec_points :
    resolveImports modM (envM none) [impM] stM =
      Res.linkErr ⟨impM, LinkErrorKind.NotFound⟩ ∧
    resolveImports modM (envM (some memShd)) [impM] stM =
      Res.linkErr ⟨impM, LinkErrorKind.MemorySharingMismatch⟩ ∧
    resolveImports modM (envM (some memMax11)) [impM] stM =
      Res.linkErr ⟨impM, LinkErrorKind.MemoryMaxTooLarge⟩ ∧
    resolveImports modM (envM (some memInit4)) [impM] stM =
      Res.linkErr ⟨impM, LinkErrorKind.MemoryTooSmall⟩ ∧
    resolveOne modM (envM (some memOk)) stM impM =
      Res.ok ⟨[], [some memOk], [], [some ⟨9, 0⟩]⟩ := by
  have h0 := instantiate_mem_import_spec modM (envM none) [] [] impM stM stM
    rfl rfl (by decide) (by decide) rfl ⟨true, false, 5, 10⟩ rfl
  have h1 := instantiate_mem_import_spec modM (envM (some memShd)) [] [] impM stM stM
    rfl rfl (by decide) (by decide) rfl ⟨true, false, 5, 10⟩ rfl
  have h2 := instantiate_mem_import_spec modM (envM (some memMax11)) [] [] impM stM stM
    rfl rfl (by decide) (by decide) rfl ⟨true, false, 5, 10⟩ rfl
  have h3 := instantiate_mem_import_spec modM (envM (some memInit4)) [] [] impM stM stM
    rfl rfl (by decide) (by decide) rfl ⟨true, false, 5, 10⟩ rfl
  have h4 := instantiate_mem_import_spec modM (envM (some memOk)) [] [] impM stM stM
    rfl rfl (by decide) (by decide) rfl ⟨true, false, 5, 10⟩ rfl
  exact ⟨h0.1 rfl,
    h1.2.1 memShd rfl (by decide),
    h2.2.2.2.1 memMax11 rfl (by decide) (by decide) (by decide),
    h3.2.2.1 memInit4 rfl (by decide) (by decide),
    (h4.2.2.2.2 memOk rfl (by decide) (by decide) (by decide)).1⟩

end Winter

namespace Winter

theorem alloc_at_least_ident (m : Memory) (p : Nat) (ma : Memory)
    (h : m.alloc_at_least p = some ma) : ma.ident = m.ident := by
  unfold Memory.alloc_at_least at h
  by_cases hle : p ≤ m.current_capacity_pages
  · rw [if_pos hle] at h
    cases h
    rfl
  · rw [if_neg hle] at h
    by_cases hgt : p > m.max_capacity_pages
    · rw [if_pos hgt] at h
      cases h
    · rw [if_neg hgt] at h
      exact (alloc_exactly_spec m p ma h).2.2.2.2.1

theorem mk_new_ident (id : ObjId) (ab : AbstractMemory) (mo : Memory)
    (h : Memory.mk_new id ab = some mo) : mo.ident = id := by
  unfold Memory.mk_new at h
  by_cases himp : ab.is_import = true
  · rw [if_pos himp] at h
    cases h
  · rw [if_neg himp] at h
    by_cases hsh : ab.is_shared = true ∧ ab.max_pages = WASM_UNLIMITED_PAGES
    · rw [if_pos (by simpa using hsh)] at h
      cases h
    · rw [if_neg (by simpa using hsh)] at h
      by_cases hfin : ab.max_pages ≠ WASM_UNLIMITED_PAGES
      · rw [if_pos hfin] at h
        cases hal : (Memory.init id ab).alloc_exactly ab.max_pages with
        | none =>
          rw [hal] at h
          cases h
        | some m1 =>
          rw [hal] at h
          cases h
          simpa [Memory.init] using (alloc_exactly_spec _ _ _ hal).2.2.2.2.1
      · rw [if_neg hfin] at h
        cases hal : (Memory.init id ab).alloc_at_least ab.initial_pages with
        | none =>
          rw [hal] at h
          cases h
        | some m1 =>
          rw [hal] at h
          cases h
          simpa [Memory.init] using alloc_at_least_ident _ _ _ hal

theorem fillMemsGo_lower (sm : List (Option Memory)) (o : Nat)
    (ds : List AbstractMemory) (i : Nat) (st st' : LinkState)
    (h : fillMemsGo sm o ds i st = Res.ok st') :
    ∀ j, j < i → st'.mems.getD j none = st.mems.getD j none := by
  induction ds generalizing i st with
  | nil =>
    cases h
    intro j hj
    rfl
  | cons d ds ih =>
    intro j hj
    unfold fillMemsGo at h
    by_cases himp : d.is_import = true
    · rw [if_pos himp] at h
      cases hcur : st.mems.getD i none with
      | none =>
        rw [hcur] at h
        cases h
      | some x =>
        rw [hcur] at h
        exact ih (i + 1) st h j (by omega)
    · rw [if_neg himp] at h
      cases hcur : st.mems.getD i none with
      | some x =>
        rw [hcur] at h
        cases h
      | none =>
        rw [hcur] at h
        by_cases hshd : d.is_shared = true
        · rw [if_pos hshd] at h
          cases hsm : sm.getD i none with
          | none =>
            rw [hsm] at h
            cases h
          | some shm =>
            rw [hsm] at h
            have := ih (i + 1) _ h j (by omega)
            rw [this]
            show (st.mems.set i (some shm)).getD j none = st.mems.getD j none
            rw [List.getD_eq_getElem?_getD, List.getD_eq_getElem?_getD,
              List.getElem?_set_ne (by omega)]
        · rw [if_neg hshd] at h
          cases hsm : sm.getD i none with
          | some x =>
            rw [hsm] at h
            cases h
          | none =>
            rw [hsm] at h
            cases hmk : Memory.mk_new ⟨o, i⟩ d with
            | none =>
              rw [hmk] at h
              cases h
            | some mo =>
              rw [hmk] at h
              have := ih (i + 1) _ h j (by omega)
              rw [this]
              show (st.mems.set i (some mo)).getD j none = st.mems.getD j none
              rw [List.getD_eq_getElem?_getD, List.getD_eq_getElem?_getD,
                List.getElem?_set_ne (by omega)]

end Winter

namespace Winter

theorem fillMemsGo_at (sm : List (Option Memory)) (o : Nat)
    (ds : List AbstractMemory) (i : Nat) (st st' : LinkState)
    (h : fillMemsGo sm o ds i st = Res.ok st')
    (hlen : i + ds.length ≤ st.mems.length) (k : Nat) (d : AbstractMemory)
    (hk : ds[k]? = some d) (hni : d.is_import = false) :
    (d.is_shared = true → ∃ shm, sm.getD (i + k) none = some shm ∧
      st'.mems.getD (i + k) none = some shm) ∧
    (d.is_shared = false → ∃ mo, Memory.mk_new ⟨o, i + k⟩ d = some mo ∧
      st'.mems.getD (i + k) none = some mo ∧ mo.ident = ⟨o, i + k⟩) := by
  induction ds generalizing i st k with
  | nil => exact absurd hk (by simp)
  | cons d0 ds ih =>
    unfold fillMemsGo at h
    cases k with
    | zero =>
      obtain rfl : d = d0 := Eq.symm (by simpa using hk)
      rw [if_neg (by simp [hni])] at h
      cases hcur : st.mems.getD i none with
      | some x =>
        rw [hcur] at h
        cases h
      | none =>
        rw [hcur] at h
        by_cases hshd : d.is_shared = true
        · rw [if_pos hshd] at h
          cases hsm : sm.getD i none with
          | none =>
            rw [hsm] at h
            cases h
          | some shm =>
            rw [hsm] at h
            have hlow := fillMemsGo_lower sm o ds (i + 1) _ st' h i (by omega)
            have hset : ({ st with
                mems := st.mems.set i (some shm),
                memory_table := st.memory_table.set i (some shm.ident) } :
                  LinkState).mems.getD i none = some shm := by
              show (st.mems.set i (some shm)).getD i none = some shm
              rw [List.getD_eq_getElem?_getD, List.getElem?_set_self
                (by simp only [List.length_cons] at hlen; omega)]
              rfl
            refine ⟨fun _ => ⟨shm, ?_, ?_⟩, fun habs => absurd hshd (by simp [habs])⟩
            · rw [Nat.add_zero]
              exact hsm
            · rw [Nat.add_zero, hlow, hset]
        · rw [if_neg hshd] at h
          cases hsm : sm.getD i none with
          | some x =>
            rw [hsm] at h
            cases h
          | none =>
            rw [hsm] at h
            cases hmk : Memory.mk_new ⟨o, i⟩ d with
            | none =>
              rw [hmk] at h
              cases h
            | some mo =>
              rw [hmk] at h
              have hlow := fillMemsGo_lower sm o ds (i + 1) _ st' h i (by omega)
              have hset : ({ st with
                  mems := st.mems.set i (some mo),
                  memory_table := st.memory_table.set i (some mo.ident) } :
                    LinkState).mems.getD i none = some mo := by
                show (st.mems.set i (some mo)).getD i none = some mo
                rw [List.getD_eq_getElem?_getD, List.getElem?_set_self
                  (by simp only [List.length_cons] at hlen; omega)]
                rfl
              refine ⟨fun habs => absurd habs hshd, fun _ => ⟨mo, ?_, ?_, ?_⟩⟩
              · rw [Nat.add_zero]
                exact hmk
              · rw [Nat.add_zero, hlow, hset]
              · rw [Nat.add_zero]
                exact mk_new_ident _ _ _ hmk
    | succ k =>
      have hk' : ds[k]? = some d := by simpa using hk
      have harith : i + (k + 1) = i + 1 + k := by omega
      rw [harith]
      by_cases himp : d0.is_import = true
      · rw [if_pos himp] at h
        cases hcur : st.mems.getD i none with
        | none =>
          rw [hcur] at h
          cases h
        | some x =>
          rw [hcur] at h
          exact ih (i + 1) st h
            (by simp only [List.length_cons] at hlen; omega) k hk'
      · rw [if_neg himp] at h
        cases hcur : st.mems.getD i none with
        | some x =>
          rw [hcur] at h
          cases h
        | none =>
          rw [hcur] at h
          by_cases hshd : d0.is_shared = true
          · rw [if_pos hshd] at h
            cases hsm : sm.getD i none with
            | none =>
              rw [hsm] at h
              cases h
            | some shm =>
              rw [hsm] at h
              exact ih (i + 1) _ h
                (by
                  simp only [List.length_cons] at hlen
                  simp only [List.length_set]
                  omega) k hk'
          · rw [if_neg hshd] at h
            cases hsm : sm.getD i none with
            | some x =>
              rw [hsm] at h
              cases h
            | none =>
              rw [hsm] at h
              cases hmk : Memory.mk_new ⟨o, i⟩ d0 with
              | none =>
                rw [hmk] at h
                cases h
              | some mo =>
                rw [hmk] at h
                exact ih (i + 1) _ h
                  (by
                    simp only [List.length_cons] at hlen
                    simp only [List.length_set]
                    omega) k hk'

end Winter

namespace Winter

theorem fillFuncsGo_mems (o : Nat) (fs : List (Option UnlinkedFuncM)) (i : Nat)
    (st st' : LinkState) (h : fillFuncsGo o fs i st = Res.ok st') :
    st'.mems = st.mems ∧ st'.memory_table = st.memory_table := by
  induction fs generalizing i st with
  | nil =>
    cases h
    exact ⟨rfl, rfl⟩
  | cons f fs ih =>
    cases f with
    | some u =>
      unfold fillFuncsGo at h
      cases hcur : st.funcs.getD i none with
      | some x =>
        rw [hcur] at h
        cases h
      | none =>
        rw [hcur] at h
        exact ih (i + 1)
          { st with
            funcs := st.funcs.set i (some ⟨⟨o, i⟩, u.sig⟩),
            func_table := st.func_table.set i (some ⟨o, i⟩) } h
    | none =>
      unfold fillFuncsGo at h
      cases hcur : st.funcs.getD i none with
      | none =>
        rw [hcur] at h
        cases h
      | some x =>
        rw [hcur] at h
        exact ih (i + 1) st h

theorem resolveOne_ok_mems_len (m : ModuleM) (env : ImportEnvM) (st : LinkState)
    (i : ImportM) (st' : LinkState) (h : resolveOne m env st i = Res.ok st') :
    st'.mems.length = st.mems.length := by
  unfold resolveOne at h
  repeat' split at h
  all_goals cases h
  all_goals first
    | rfl
    | simp [List.length_set]

theorem resolveImports_ok_mems_len (m : ModuleM) (env : ImportEnvM)
    (l : List ImportM) (st st' : LinkState)
    (h : resolveImports m env l st = Res.ok st') :
    st'.mems.length = st.mems.length := by
  induction l generalizing st with
  | nil =>
    cases h
    rfl
  | cons i rest ih =>
    unfold resolveImports at h
    cases hone : resolveOne m env st i with
    | ok st1 =>
      rw [hone] at h
      exact (ih st1 h).trans (resolveOne_ok_mems_len m env st i st1 hone)
    | linkErr e =>
      rw [hone] at h
      cases h
    | fatal =>
      rw [hone] at h
      cases h

end Winter

namespace Winter

theorem instantiateM_mem_slot (m : ModuleM) (env : ImportEnvM) (o : Nat) (inst : InstM)
    (h : instantiateM m env o = Res.ok inst) (k : Nat) (d : AbstractMemory)
    (hd : m.memories[k]? = some d) (hni : d.is_import = false) :
    (d.is_shared = true → ∃ shm, m.shared_memories.getD k none = some shm ∧
      inst.mems.getD k none = some shm) ∧
    (d.is_shared = false → ∃ mo, Memory.mk_new ⟨o + 1, k⟩ d = some mo ∧
      inst.mems.getD k none = some mo ∧ mo.ident = ⟨o + 1, k⟩) := by
  unfold instantiateM at h
  cases h1 : resolveImports m env m.imports
      ⟨List.replicate m.funcs.length none, List.replicate m.memories.length none,
        List.replicate m.funcs.length none, List.replicate m.memories.length none⟩ with
  | linkErr e =>
    rw [h1] at h
    cases h
  | fatal =>
    rw [h1] at h
    cases h
  | ok st1 =>
    rw [h1] at h
    simp only [] at h
    cases h2 : fillFuncsGo (o + 1) m.funcs 0 st1 with
    | linkErr e =>
      rw [h2] at h
      cases h
    | fatal =>
      rw [h2] at h
      cases h
    | ok st2 =>
      rw [h2] at h
      simp only [] at h
      cases h3 : fillMemsGo m.shared_memories (o + 1) m.memories 0 st2 with
      | linkErr e =>
        rw [h3] at h
        cases h
      | fatal =>
        rw [h3] at h
        cases h
      | ok st3 =>
        rw [h3] at h
        simp only [] at h
        cases h
        have hlen1 : st1.mems.length = m.memories.length := by
          have := resolveImports_ok_mems_len m env m.imports _ st1 h1
          simpa using this
        have hlen2 : st2.mems.length = m.memories.length := by
          rw [(fillFuncsGo_mems (o + 1) m.funcs 0 st1 st2 h2).1, hlen1]
        have hat := fillMemsGo_at m.shared_memories (o + 1) m.memories 0 st2 st3 h3
          (by omega) k d hd hni
        simpa using hat

/-- C7: if a module defines a shared memory at slot `k`, every instance
produced from it by `ModuleInstance::instantiate` holds the identical
(pointer-equal) `Memory` object at slot `k` — the one pre-allocated in
the partial module's `_shared_memories` table; if the module's defined
memory at slot `k` is unshared, any two instances produced from it (two
instantiation calls, hence two distinct allocations `o1 ≠ o2`) hold
distinct `Memory` objects at slot `k`. -/
theorem shared_unshared_memory_identity (m : ModuleM) (k : Nat) (d : AbstractMemory)
    (hd : m.memories[k]? = some d) (hni : d.is_import = false) :
    (d.is_shared = true →
      ∀ env1 env2 o1 o2 i1 i2, instantiateM m env1 o1 = Res.ok i1 →
        instantiateM m env2 o2 = Res.ok i2 →
        ∃ shm, m.shared_memories.getD k none = some shm ∧
          i1.mems.getD k none = some shm ∧ i2.mems.getD k none = some shm) ∧
    (d.is_shared = false →
      ∀ env1 env2 o1 o2 i1 i2, o1 ≠ o2 →
        instantiateM m env1 o1 = Res.ok i1 → instantiateM m env2 o2 = Res.ok i2 →
        ∃ mo1 mo2, i1.mems.getD k none = some mo1 ∧ i2.mems.getD k none = some mo2 ∧
          mo1.ident ≠ mo2.ident) := by
  constructor
  · intro hsh env1 env2 o1 o2 i1 i2 hin1 hin2
    obtain ⟨shm1, hm1, hg1⟩ :=
      (instantiateM_mem_slot m env1 o1 i1 hin1 k d hd hni).1 hsh
    obtain ⟨shm2, hm2, hg2⟩ :=
      (instantiateM_mem_slot m env2 o2 i2 hin2 k d hd hni).1 hsh
    obtain rfl : shm1 = shm2 := by
      have := hm1.symm.trans hm2
      simpa using this
    exact ⟨shm1, hm1, hg1, hg2⟩
  · intro hsh env1 env2 o1 o2 i1 i2 hne hin1 hin2
    obtain ⟨mo1, hmk1, hg1, hid1⟩ :=
      (instantiateM_mem_slot m env1 o1 i1 hin1 k d hd hni).2 hsh
    obtain ⟨mo2, hmk2, hg2, hid2⟩ :=
      (instantiateM_mem_slot m env2 o2 i2 hin2 k d hd hni).2 hsh
    refine ⟨mo1, mo2, hg1, hg2, ?_⟩
    rw [hid1, hid2]
    intro hc
    exact hne (by simpa using congrArg ObjId.owner hc)

end Winter

namespace Winter

/-- The shared memory pre-allocated by the partial module of C7's
witness (`create` with min = max = 0 keeps the backing empty). -/
def memSh00 : Memory :=
  { ident := ⟨0, 0⟩, shared := true, mem := fun _ => 0, size := 0,
    current_capacity_pages := 0, max_capacity_pages := 0, initial_pages := 0 }

/-- A module defining one shared memory at slot 0, pre-allocated as
`memSh00`. -/
def modC7s : ModuleM := ⟨[], [], [⟨false, true, 0, 0⟩], [some memSh00], [], []⟩

/-- A module defining one unshared memory at slot 0. -/
def modC7u : ModuleM := ⟨[], [], [⟨false, false, 0, 0⟩], [none], [], []⟩

/-- An import environment supplying nothing. -/
def envNil : ImportEnvM := ⟨fun _ => Except.ok none, fun _ => Except.ok none⟩

/-- The instance produced by instantiating `modC7s` (any call identity). -/
def instSh : InstM := ⟨[], [], [some memSh00], [], [some ⟨0, 0⟩]⟩

/-- The memory freshly allocated for `modC7u` by instantiation call 1. -/
def memU2 : Memory :=
  { ident := ⟨2, 0⟩, shared := false, mem := fun _ => 0, size := 0,
    current_capacity_pages := 0, max_capacity_pages := 0, initial_pages := 0 }

/-- The memory freshly allocated for `modC7u` by instantiation call 2. -/
def memU3 : Memory :=
  { ident := ⟨3, 0⟩, shared := false, mem := fun _ => 0, size := 0,
    current_capacity_pages := 0, max_capacity_pages := 0, initial_pages := 0 }

/-- The instance produced by instantiating `modC7u` with call identity 1. -/
def instU2 : InstM := ⟨[], [], [some memU2], [], [some ⟨2, 0⟩]⟩

/-- The instance produced by instantiating `modC7u` with call identity 2. -/
def instU3 : InstM := ⟨[], [], [some memU3], [], [some ⟨3, 0⟩]⟩

/-- Witness for C7: two instantiations of the shared-memory module hold
the very memory pre-allocated by the partial module at slot 0, while
two instantiations of the unshared-memory module hold memories with
distinct identities at slot 0. -/
theorem shared_unshared_memory_identity_points :
    (instSh.mems.getD 0 none).isSome = true ∧
    instSh.mems.getD 0 none = modC7s.shared_memories.getD 0 none ∧
    Option.map Memory.ident (instU2.mems.getD 0 none) ≠
      Option.map Memory.ident (instU3.mems.getD 0 none) := by
  obtain ⟨hshared, -⟩ :=
    shared_unshared_memory_identity modC7s 0 ⟨false, true, 0, 0⟩ rfl rfl
  obtain ⟨shm, hm, hg1, hg2⟩ := hshared rfl envNil envNil 1 2 instSh instSh rfl rfl
  obtain ⟨-, hunshared⟩ :=
    shared_unshared_memory_identity modC7u 0 ⟨false, false, 0, 0⟩ rfl rfl
  obtain ⟨mo1, mo2, hu1, hu2, hune⟩ :=
    hunshared rfl envNil envNil 1 2 instU2 instU3 (by decide) rfl rfl
  refine ⟨by rw [hg1]; rfl, hg1.trans hm.symm, ?_⟩
  rw [hu1, hu2]
  intro hc
  exact hune (by simpa using hc)

end Winter
